import Mathlib

/-!
# Verification of the chess clock (`src/timer.rs`)

Shallow embedding of the `ChessTimer` state machine.  Conventions:

* `std::time::Instant` values are modelled as natural numbers (milliseconds
  since an arbitrary epoch).  Every mutating operation takes the timestamp
  `now` it reads at entry; all clock reads inside one call are identified
  with that entry timestamp, following the once-per-call read discipline.
  `benchmark.elapsed()` becomes the truncated subtraction `now - benchmark`
  (like `Instant::elapsed`, it is never negative).
* The boxed callback is modelled as an event log: every mutating operation
  returns, besides the new state, the list of player indices the callback
  was invoked with, in invocation order.
* `adjust_elapsed_time_for_player` and `stop` are mutually recursive in the
  source (expiry inside `adjust` calls `stop`, which charges time through
  `adjust` again), with no structural measure; they are therefore embedded
  with an explicit fuel parameter, `none` meaning the recursion did not
  finish within the given fuel.  A result of `none` for every fuel is
  divergence of the source program (unbounded mutual recursion).
* `i64` accumulators are modelled as `Int` (the spec declares `elapsed_ms`
  unbounded below); `u32` values as `Nat`.  In `elapsed_to_remaining`,
  where the spec makes claims about exact `i64`/`u32` boundary behaviour,
  the arithmetic is modelled bit-faithfully: `i64::abs` overflows at
  `i64::MIN`, which the embedding returns as `none` (a Rust arithmetic
  overflow: panic under debug assertions).
-/

namespace ChessClock

/-- `TimerDirection` from `timer.rs`: `Down` counts a budget down, `Up`
accumulates without a cap. -/
inductive TimerDirection where
  | Down
  | Up
deriving DecidableEq, Repr

/-- `TimerError` from `timer.rs`: the only error kind is a settings
conflict carrying a message. -/
inductive TimerError where
  | SettingsConflict (msg : String)
deriving DecidableEq, Repr

/-- `SUPPORTED_PLAYERS` from `timer.rs`. -/
def SUPPORTED_PLAYERS : Nat := 2

/-- `u32::MAX`. -/
def U32_MAX : Nat := 2 ^ 32 - 1

/-- `i64::MIN`. -/
def I64_MIN : Int := -(2 ^ 63)

/-- The `ChessTimer` struct from `timer.rs`.  Arrays `[T; 2]` are modelled
as functions from player index; only indices below `SUPPORTED_PLAYERS` are
ever read or written by the operations.  The boxed callback is not part of
the state: callback invocations are reported in each operation's event
log. -/
structure ChessTimer where
  started_at : Option Nat
  last_player_switch_at : Option Nat
  direction : TimerDirection
  curr_player_index : Option Nat
  last_player_index : Option Nat
  player_elapsed_ms : Nat → Int
  player_maxtime_ms : Nat → Nat
  player_adjust_on_switch_ms : Nat → Int

/-- `ChessTimer::new`.  Fails with `SettingsConflict` exactly when the
direction is `Down` and no maxtime array is given; otherwise builds the
initial state (the source also installs a no-op callback, which has no
counterpart in the event-log model). -/
def new (direction : TimerDirection)
    (player_maxtime_ms : Option (Nat → Nat))
    (player_adjust_on_switch_ms : Option (Nat → Int)) :
    Except TimerError ChessTimer :=
  match player_maxtime_ms with
  | some maxtime =>
      Except.ok
        { started_at := none
          last_player_switch_at := none
          direction := direction
          curr_player_index := some 0
          last_player_index := none
          player_elapsed_ms := fun _ => 0
          player_maxtime_ms := maxtime
          player_adjust_on_switch_ms :=
            player_adjust_on_switch_ms.getD fun _ => 0 }
  | none =>
      if direction = TimerDirection.Down then
        Except.error
          (TimerError.SettingsConflict "Down counting timer requires a maxtime")
      else
        Except.ok
          { started_at := none
            last_player_switch_at := none
            direction := direction
            curr_player_index := some 0
            last_player_index := none
            player_elapsed_ms := fun _ => 0
            player_maxtime_ms := fun _ => 0
            player_adjust_on_switch_ms :=
              player_adjust_on_switch_ms.getD fun _ => 0 }

/-- `ChessTimer::player_index_supported`. -/
def player_index_supported (player : Nat) : Bool :=
  decide (player < SUPPORTED_PLAYERS)

/-- `ChessTimer::start`.  `now` is the timestamp read at entry. -/
def start (s : ChessTimer) (now : Nat) : ChessTimer :=
  if s.started_at.isSome then s
  else
    let s1 :=
      match s.last_player_index with
      | some last_player =>
          { s with curr_player_index := some last_player
                   last_player_index := none }
      | none => s
    { s1 with started_at := some now, last_player_switch_at := some now }

/-- The new value of `player_elapsed_ms[player]` computed by
`adjust_elapsed_time_for_player`: clamped at the maxtime for `Down`,
unclamped for `Up` (lines 179–186 of `timer.rs`). -/
def adjusted_elapsed (s : ChessTimer) (player : Nat) (adjustment_ms : Int) :
    Int :=
  match s.direction with
  | TimerDirection.Down =>
      min ((s.player_maxtime_ms player : Int))
        (s.player_elapsed_ms player + adjustment_ms)
  | TimerDirection.Up => s.player_elapsed_ms player + adjustment_ms

/-- Store a value into `player_elapsed_ms[player]`, leaving every other
field and every other player's accumulator unchanged. -/
def write_elapsed (s : ChessTimer) (player : Nat) (v : Int) : ChessTimer :=
  { s with player_elapsed_ms :=
      fun j => if j = player then v else s.player_elapsed_ms j }

mutual

/-- `ChessTimer::adjust_elapsed_time_for_player`, fuel-indexed (first
argument) because of the mutual recursion with `stop` through the expiry
path.  Returns the new state and the callback log, or `none` when the
fuel runs out. -/
def adjust_elapsed_time_for_player :
    Nat → ChessTimer → Nat → Int → Nat → Option (ChessTimer × List Nat)
  | 0, _, _, _, _ => none
  | fuel + 1, s, player, adjustment_ms, now =>
    if player_index_supported player then
      let s1 := write_elapsed s player (adjusted_elapsed s player adjustment_ms)
      if (s1.player_maxtime_ms player : Int) ≤ s1.player_elapsed_ms player then
        match stop fuel s1 now with
        | none => none
        | some (s2, log) => some (s2, player :: log)
      else
        some (s1, [])
    else
      some (s, [])

/-- `ChessTimer::stop`, fuel-indexed (first argument).  When running with a
current player, charges `now - benchmark` to that player through
`adjust_elapsed_time_for_player`, then records the switch timestamp and
clears `started_at`. -/
def stop : Nat → ChessTimer → Nat → Option (ChessTimer × List Nat)
  | 0, _, _ => none
  | fuel + 1, s, now =>
    match s.started_at with
    | none => some (s, [])
    | some started =>
      match s.curr_player_index with
      | none => some (s, [])
      | some current_player =>
        let benchmark := s.last_player_switch_at.getD started
        match adjust_elapsed_time_for_player fuel s current_player
            ((now - benchmark : Nat) : Int) now with
        | none => none
        | some (s1, log) =>
            some ({ s1 with last_player_switch_at := some now
                            started_at := none }, log)

end

/-- `ChessTimer::elapsed_to_remaining`, with exact `i64`/`u32` semantics.
`none` models the arithmetic overflow of `elapsed.abs()` at `i64::MIN`
(a panic under Rust debug assertions); any other in-range input follows
the source's three branches. -/
def elapsed_to_remaining (elapsed : Int) (last_remaining : Nat) : Option Nat :=
  if (last_remaining : Int) ≤ elapsed then
    some 0
  else if elapsed < 0 then
    if elapsed = I64_MIN then
      none
    else
      let max_allowed_timelapse := U32_MAX - last_remaining
      if (max_allowed_timelapse : Int) ≤ (elapsed.natAbs : Int) then
        some U32_MAX
      else
        some (elapsed.natAbs + last_remaining)
  else
    some (last_remaining - elapsed.toNat)

/-- `ChessTimer::check_elapsed_time_for_player`. -/
def check_elapsed_time_for_player (s : ChessTimer) (player : Nat) :
    Option Int :=
  if player_index_supported player then some (s.player_elapsed_ms player)
  else none

/-- `ChessTimer::check_remaining_time_for_player`.  Outer `none` models a
panic inside `elapsed_to_remaining`; `some none` is the source's `None`
(invalid index); `some (some r)` is the source's `Some(r)`. -/
def check_remaining_time_for_player (s : ChessTimer) (player : Nat) :
    Option (Option Nat) :=
  match check_elapsed_time_for_player s player with
  | some elapsed =>
      (elapsed_to_remaining elapsed (s.player_maxtime_ms player)).map some
  | none => some none

/-- `ChessTimer::current_player`. -/
def current_player (s : ChessTimer) : Option Nat :=
  s.curr_player_index

/-- `ChessTimer::switch_to_player`, fuel-indexed for the inner call to
`adjust_elapsed_time_for_player`. -/
def switch_to_player (fuel : Nat) (s : ChessTimer) (player : Nat)
    (now : Nat) : Option (ChessTimer × List Nat) :=
  if player_index_supported player then
    let charged :=
      match s.last_player_switch_at, s.curr_player_index with
      | some last_player_switch_at, some current_player =>
          adjust_elapsed_time_for_player fuel s current_player
            (((now - last_player_switch_at : Nat) : Int)
              - s.player_adjust_on_switch_ms current_player) now
      | _, _ => some (s, [])
    match charged with
    | none => none
    | some (s1, log) =>
        some ({ s1 with last_player_index := s1.curr_player_index
                        last_player_switch_at := some now
                        curr_player_index := some player }, log)
  else
    some (s, [])

/-- `ChessTimer::switch_to_next_player`, fuel-indexed like
`switch_to_player`. -/
def switch_to_next_player (fuel : Nat) (s : ChessTimer) (now : Nat) :
    Option (ChessTimer × List Nat) :=
  match s.curr_player_index with
  | none => some (s, [])
  | some current_player =>
    let provisional := current_player + 1
    let next := if SUPPORTED_PLAYERS ≤ provisional then 0 else provisional
    switch_to_player fuel s next now

/-- The countdown clamp invariant: on a `Down` clock, no in-range player's
elapsed accumulator exceeds that player's maxtime. -/
def CountdownClamped (s : ChessTimer) : Prop :=
  s.direction = TimerDirection.Down →
    ∀ q, q < SUPPORTED_PLAYERS →
      s.player_elapsed_ms q ≤ (s.player_maxtime_ms q : Int)

/-- Fixture: the countdown clock built by
`new Down (Some([1000; 2]), None)` (budget 1000 ms per player), written
out; `new_downClock` below checks it is exactly the constructor's
result. -/
def downClock : ChessTimer where
  started_at := none
  last_player_switch_at := none
  direction := TimerDirection.Down
  curr_player_index := some 0
  last_player_index := none
  player_elapsed_ms := fun _ => 0
  player_maxtime_ms := fun _ => 1000
  player_adjust_on_switch_ms := fun _ => 0

/-- Fixture: same clock with a 5000 ms switch adjustment for both players
(the spec's banked-time scenario). -/
def bankClock : ChessTimer where
  started_at := none
  last_player_switch_at := none
  direction := TimerDirection.Down
  curr_player_index := some 0
  last_player_index := none
  player_elapsed_ms := fun _ => 0
  player_maxtime_ms := fun _ => 1000
  player_adjust_on_switch_ms := fun _ => 5000

/-- One public mutating operation together with the timestamp it reads at
entry (and, for `adjust`, its arguments). -/
inductive Op where
  | opStart (now : Nat)
  | opStop (now : Nat)
  | opAdjust (player : Nat) (adjustment_ms : Int) (now : Nat)
  | opSwitchTo (player : Nat) (now : Nat)
  | opSwitchNext (now : Nat)

/-- Run one operation (fuel bounds the adjust/stop recursion). -/
def runOp (fuel : Nat) (s : ChessTimer) : Op → Option (ChessTimer × List Nat)
  | Op.opStart now => some (start s now, [])
  | Op.opStop now => stop fuel s now
  | Op.opAdjust player d now =>
      adjust_elapsed_time_for_player fuel s player d now
  | Op.opSwitchTo player now => switch_to_player fuel s player now
  | Op.opSwitchNext now => switch_to_next_player fuel s now

/-- Run a sequence of operations, threading the state; `none` as soon as
one operation runs out of fuel. -/
def runOps (fuel : Nat) (s : ChessTimer) : List Op → Option ChessTimer
  | [] => some s
  | op :: ops =>
    match runOp fuel s op with
    | none => none
    | some (s1, _) => runOps fuel s1 ops

end ChessClock

namespace ChessClock

section BasicLemmas

@[simp] lemma write_elapsed_direction (s : ChessTimer) (p : Nat) (v : Int) :
    (write_elapsed s p v).direction = s.direction := rfl

@[simp] lemma write_elapsed_started_at (s : ChessTimer) (p : Nat) (v : Int) :
    (write_elapsed s p v).started_at = s.started_at := rfl

@[simp] lemma write_elapsed_curr (s : ChessTimer) (p : Nat) (v : Int) :
    (write_elapsed s p v).curr_player_index = s.curr_player_index := rfl

@[simp] lemma write_elapsed_last (s : ChessTimer) (p : Nat) (v : Int) :
    (write_elapsed s p v).last_player_index = s.last_player_index := rfl

@[simp] lemma write_elapsed_switch_at (s : ChessTimer) (p : Nat) (v : Int) :
    (write_elapsed s p v).last_player_switch_at = s.last_player_switch_at := rfl

@[simp] lemma write_elapsed_maxtime (s : ChessTimer) (p : Nat) (v : Int) :
    (write_elapsed s p v).player_maxtime_ms = s.player_maxtime_ms := rfl

@[simp] lemma write_elapsed_adjust_on_switch (s : ChessTimer) (p : Nat) (v : Int) :
    (write_elapsed s p v).player_adjust_on_switch_ms
      = s.player_adjust_on_switch_ms := rfl

@[simp] lemma write_elapsed_self (s : ChessTimer) (p : Nat) (v : Int) :
    (write_elapsed s p v).player_elapsed_ms p = v := by
  simp [write_elapsed]

lemma write_elapsed_other (s : ChessTimer) (p : Nat) (v : Int) (j : Nat)
    (h : j ≠ p) : (write_elapsed s p v).player_elapsed_ms j
      = s.player_elapsed_ms j := by
  simp [write_elapsed, h]

lemma adjusted_elapsed_down (s : ChessTimer) (p : Nat) (d : Int)
    (h : s.direction = TimerDirection.Down) :
    adjusted_elapsed s p d
      = min ((s.player_maxtime_ms p : Int)) (s.player_elapsed_ms p + d) := by
  simp [adjusted_elapsed, h]

lemma player_index_supported_true {p : Nat} (h : p < SUPPORTED_PLAYERS) :
    player_index_supported p = true := by
  simp [player_index_supported, h]

end BasicLemmas

/-- States from which the `adjust`/`stop` mutual recursion cannot return
within any fuel: countdown direction, clock running, current player `c` in
range, and the pending update leaves `elapsed_ms[c]` at or above
`max_time_ms[c]` (the `Down` clamp then pins `elapsed_ms[c]` to the cap,
the expiry branch fires, and `stop` — whose `started_at` is still set —
charges a non-negative interval through `adjust` again, forever). -/
lemma adjust_stop_diverge (fuel : Nat) :
    (∀ s c d now, s.direction = TimerDirection.Down →
      s.started_at.isSome = true → s.curr_player_index = some c →
      c < SUPPORTED_PLAYERS →
      (s.player_maxtime_ms c : Int) ≤ s.player_elapsed_ms c + d →
      adjust_elapsed_time_for_player fuel s c d now = none)
    ∧ (∀ s c now, s.direction = TimerDirection.Down →
      s.started_at.isSome = true → s.curr_player_index = some c →
      c < SUPPORTED_PLAYERS →
      (s.player_maxtime_ms c : Int) ≤ s.player_elapsed_ms c →
      stop fuel s now = none) := by
  induction fuel with
  | zero => exact ⟨fun _ _ _ _ _ _ _ _ _ => rfl, fun _ _ _ _ _ _ _ _ => rfl⟩
  | succ fuel ih =>
    constructor
    · intro s c d now hdir hstart hcurr hc hle
      have hsup := player_index_supported_true hc
      have hmin : adjusted_elapsed s c d = (s.player_maxtime_ms c : Int) := by
        rw [adjusted_elapsed_down s c d hdir, min_eq_left hle]
      have hstop :
          stop fuel (write_elapsed s c (adjusted_elapsed s c d)) now = none := by
        refine ih.2 _ c now ?_ ?_ ?_ hc ?_
        · simpa using hdir
        · simpa using hstart
        · simpa using hcurr
        · simp [hmin]
      simp only [adjust_elapsed_time_for_player, hsup, if_true]
      rw [if_pos (by simp [hmin])]
      simp [hstop]
    · intro s c now hdir hstart hcurr hc hle
      obtain ⟨t, ht⟩ := Option.isSome_iff_exists.mp hstart
      have hadj : adjust_elapsed_time_for_player fuel s c
          ((now - s.last_player_switch_at.getD t : Nat) : Int) now = none := by
        refine ih.1 s c _ now hdir hstart hcurr hc ?_
        have h0 : (0 : Int)
            ≤ ((now - s.last_player_switch_at.getD t : Nat) : Int) :=
          Int.natCast_nonneg _
        omega
      simp only [stop, ht, hcurr]
      simp [hadj]

/-- C1.  The spec says an expiring `adjust_elapsed_time_for_player` call
invokes the notifier exactly once and then performs `stop()`.  On the code,
when the clock is running and the expiring player is the current player,
the expiry branch of `adjust` calls `stop`, which — `started_at` not yet
cleared — charges the current player through `adjust` again, whose clamp
keeps `elapsed` at the cap, re-firing expiry: unbounded mutual recursion
(a stack overflow in the source), for every fuel bound. -/
theorem adjust_expiry_diverges_on_running_current_player :
    ∀ fuel : Nat,
      (new TimerDirection.Down (some fun _ => 1000) none).toOption.bind
        (fun s0 => adjust_elapsed_time_for_player fuel (start s0 0) 0 1000 5)
      = none := by
  intro fuel
  show adjust_elapsed_time_for_player fuel _ 0 1000 5 = none
  exact (adjust_stop_diverge fuel).1 _ 0 1000 5 rfl rfl rfl (by decide)
    (by decide)

/-- C2.  The spec says every operation terminates; on the code, `stop()`
on a running countdown clock whose charge reaches the current player's
maxtime recurses `stop → adjust → stop → …` without bound: here the clock
ran from timestamp 0 to 2000 against a maxtime of 1000, and `stop` returns
within no fuel bound. -/
theorem stop_diverges_on_expired_running_clock :
    ∀ fuel : Nat,
      (new TimerDirection.Down (some fun _ => 1000) none).toOption.bind
        (fun s0 => stop fuel (start s0 0) 2000)
      = none := by
  intro fuel
  show stop fuel (start downClock 0) 2000 = none
  cases fuel with
  | zero => rfl
  | succ fuel =>
    have hadj : adjust_elapsed_time_for_player fuel (start downClock 0) 0
        (2000 : Int) 2000 = none :=
      (adjust_stop_diverge fuel).1 _ 0 _ 2000 rfl rfl rfl (by decide) (by decide)
    simp only [stop, show (start downClock 0).started_at = some 0 from rfl,
      show (start downClock 0).curr_player_index = some 0 from rfl,
      show (start downClock 0).last_player_switch_at = some 0 from rfl,
      Option.getD_some]
    norm_num
    rw [hadj]

end ChessClock

namespace ChessClock

/-- C3.  The spec requires `elapsed_to_remaining` to evaluate without
overflow for every `i64` input, `i64::MIN` included.  At `i64::MIN` the
source computes `elapsed.abs()`, which overflows `i64` (`none` here); at
the very next value the function still saturates correctly, so the slip
is exactly at `i64::MIN`. -/
theorem elapsed_to_remaining_overflows_at_i64_min :
    elapsed_to_remaining I64_MIN 1000 = none
    ∧ elapsed_to_remaining (I64_MIN + 1) 1000 = some U32_MAX := by
  constructor <;> decide

/-- C10.  `elapsed_to_remaining` implements the three-case conversion on
every non-overflowing `i64` input: `0` once elapsed meets the baseline,
`last_remaining + |elapsed|` for negative elapsed with a representable
sum, `last_remaining - elapsed` otherwise (the remaining case has
`0 ≤ elapsed < last_remaining`), with the spec's two concrete values. -/
theorem elapsed_to_remaining_three_cases (elapsed : Int) (last_remaining : Nat)
    (hlo : I64_MIN < elapsed) (hr : last_remaining ≤ U32_MAX) :
    (((last_remaining : Nat) : Int) ≤ elapsed →
      elapsed_to_remaining elapsed last_remaining = some 0)
    ∧ (elapsed < 0 → elapsed.natAbs + last_remaining ≤ U32_MAX →
      elapsed_to_remaining elapsed last_remaining
        = some (elapsed.natAbs + last_remaining))
    ∧ (0 ≤ elapsed → elapsed < ((last_remaining : Nat) : Int) →
      elapsed_to_remaining elapsed last_remaining
        = some (last_remaining - elapsed.toNat))
    ∧ elapsed_to_remaining 10 1000 = some 990
    ∧ elapsed_to_remaining (-4000) 1000 = some 5000 := by
  refine ⟨?_, ?_, ?_, by decide, by decide⟩
  · intro h
    simp only [elapsed_to_remaining]
    rw [if_pos h]
  · intro hneg hrep
    have h1 : ¬ ((last_remaining : Int) ≤ elapsed) := by
      have := Int.natCast_nonneg last_remaining
      omega
    have h2 : elapsed ≠ I64_MIN := by omega
    have hcast : ((U32_MAX - last_remaining : Nat) : Int)
        = (U32_MAX : Int) - (last_remaining : Int) := by
      push_cast [Nat.cast_sub hr]
      ring
    simp only [elapsed_to_remaining]
    rw [if_neg h1, if_pos hneg, if_neg h2]
    by_cases hsat :
        ((U32_MAX - last_remaining : Nat) : Int) ≤ (elapsed.natAbs : Int)
    · have h3 : (elapsed.natAbs : Int) + (last_remaining : Int)
          ≤ (U32_MAX : Int) := by exact_mod_cast hrep
      have h4 : (elapsed.natAbs : Int) + (last_remaining : Int)
          = (U32_MAX : Int) := by
        rw [hcast] at hsat
        omega
      have hval : U32_MAX = elapsed.natAbs + last_remaining := by
        exact_mod_cast h4.symm
      rw [if_pos hsat, hval]
    · rw [if_neg hsat]
  · intro h0 hlt
    have h1 : ¬ ((last_remaining : Int) ≤ elapsed) := by omega
    have h2 : ¬ (elapsed < 0) := by omega
    simp only [elapsed_to_remaining]
    rw [if_neg h1, if_neg h2]

/-- C10 witness at `elapsed = -4000`, `last_remaining = 1000`. -/
theorem elapsed_to_remaining_three_cases_witness :
    (((1000 : Nat) : Int) ≤ (-4000 : Int) →
      elapsed_to_remaining (-4000) 1000 = some 0)
    ∧ ((-4000 : Int) < 0 → (Int.natAbs (-4000)) + 1000 ≤ U32_MAX →
      elapsed_to_remaining (-4000) 1000
        = some ((Int.natAbs (-4000)) + 1000))
    ∧ ((0 : Int) ≤ (-4000 : Int) → (-4000 : Int) < ((1000 : Nat) : Int) →
      elapsed_to_remaining (-4000) 1000
        = some (1000 - (Int.toNat (-4000))))
    ∧ elapsed_to_remaining 10 1000 = some 990
    ∧ elapsed_to_remaining (-4000) 1000 = some 5000 :=
  elapsed_to_remaining_three_cases (-4000) 1000 (by decide) (by decide)

/-- C8.  `new` fails with exactly the spec's `SettingsConflict` message
iff the direction is `Down` and the maxtime array is absent; any
successful construction starts with no timestamps, current player 0, no
last player, zero elapsed accumulators, and zero defaults for absent
maxtime or switch-adjustment arrays. -/
theorem new_settings_and_defaults (direction : TimerDirection)
    (maxt : Option (Nat → Nat)) (adjt : Option (Nat → Int)) :
    (new direction maxt adjt
        = Except.error
            (TimerError.SettingsConflict "Down counting timer requires a maxtime")
      ↔ direction = TimerDirection.Down ∧ maxt = none)
    ∧ (∀ s, new direction maxt adjt = Except.ok s →
      s.started_at = none
      ∧ s.last_player_switch_at = none
      ∧ s.curr_player_index = some 0
      ∧ s.last_player_index = none
      ∧ (∀ p, s.player_elapsed_ms p = 0)
      ∧ s.direction = direction
      ∧ (maxt = none → ∀ p, s.player_maxtime_ms p = 0)
      ∧ (adjt = none → ∀ p, s.player_adjust_on_switch_ms p = 0)) := by
  constructor
  · cases maxt with
    | some m =>
        simp [new]
    | none =>
        cases direction <;> simp [new]
  · intro s h
    cases maxt with
    | some m =>
        simp only [new] at h
        cases h
        cases adjt <;> simp [Option.getD]
    | none =>
        cases direction with
        | Down => simp [new] at h
        | Up =>
            simp only [new, reduceIte] at h
            cases h
            cases adjt <;> simp [Option.getD]

/-- C9.  An out-of-range player index (`p ≥ SUPPORTED_PLAYERS`) makes
`adjust_elapsed_time_for_player` and `switch_to_player` immediate no-ops
returning the state unchanged with no callback, and makes both accessors
return the source's `None`; for every index the accessors are total
(in-range elapsed queries return the stored accumulator), and no state
operation returns an error for any index (only `new` can fail at all). -/
theorem out_of_range_player_is_noop (s : ChessTimer) (p : Nat) (d : Int)
    (now fuel : Nat) (hp : SUPPORTED_PLAYERS ≤ p) :
    adjust_elapsed_time_for_player (fuel + 1) s p d now = some (s, [])
    ∧ switch_to_player fuel s p now = some (s, [])
    ∧ check_elapsed_time_for_player s p = none
    ∧ check_remaining_time_for_player s p = some none
    ∧ (∀ q, q < SUPPORTED_PLAYERS →
        check_elapsed_time_for_player s q = some (s.player_elapsed_ms q))
    ∧ current_player s = s.curr_player_index := by
  have hsup : player_index_supported p = false := by
    simp [player_index_supported, Nat.not_lt.mpr hp]
  refine ⟨?_, ?_, ?_, ?_, ?_, rfl⟩
  · simp [adjust_elapsed_time_for_player, hsup]
  · simp [switch_to_player, hsup]
  · simp [check_elapsed_time_for_player, hsup]
  · simp [check_remaining_time_for_player, check_elapsed_time_for_player, hsup]
  · intro q hq
    simp [check_elapsed_time_for_player, player_index_supported_true hq]

/-- C9 witness: player index 2 on the 1000 ms countdown clock. -/
theorem out_of_range_player_is_noop_witness :
    adjust_elapsed_time_for_player (0 + 1) downClock 2 7 0 = some (downClock, [])
    ∧ switch_to_player 0 downClock 2 0 = some (downClock, [])
    ∧ check_elapsed_time_for_player downClock 2 = none
    ∧ check_remaining_time_for_player downClock 2 = some none
    ∧ (∀ q, q < SUPPORTED_PLAYERS →
        check_elapsed_time_for_player downClock q
          = some (downClock.player_elapsed_ms q))
    ∧ current_player downClock = downClock.curr_player_index :=
  out_of_range_player_is_noop downClock 2 7 0 0 (by decide)

end ChessClock

namespace ChessClock

/-- Writing the adjusted value keeps the clamp invariant: on a `Down`
clock the written value is `min (maxtime) _`. -/
lemma clamped_write_adjusted (s : ChessTimer) (p : Nat) (d : Int)
    (h : CountdownClamped s) :
    CountdownClamped (write_elapsed s p (adjusted_elapsed s p d)) := by
  intro hdir q hq
  rw [write_elapsed_maxtime]
  by_cases hqp : q = p
  · subst hqp
    rw [write_elapsed_self, adjusted_elapsed_down s q d (by simpa using hdir)]
    exact min_le_left _ _
  · rw [write_elapsed_other s p _ q hqp]
    exact h (by simpa using hdir) q hq

/-- `adjust_elapsed_time_for_player` and `stop` preserve direction, the
maxtime array, and the countdown clamp invariant whenever they return. -/
lemma adjust_stop_preserve (fuel : Nat) :
    (∀ s p d now s' log,
      adjust_elapsed_time_for_player fuel s p d now = some (s', log) →
      s'.direction = s.direction
      ∧ s'.player_maxtime_ms = s.player_maxtime_ms
      ∧ (CountdownClamped s → CountdownClamped s'))
    ∧ (∀ s now s' log, stop fuel s now = some (s', log) →
      s'.direction = s.direction
      ∧ s'.player_maxtime_ms = s.player_maxtime_ms
      ∧ (CountdownClamped s → CountdownClamped s')) := by
  induction fuel with
  | zero =>
    constructor
    · intro s p d now s' log h
      simp [adjust_elapsed_time_for_player] at h
    · intro s now s' log h
      simp [stop] at h
  | succ fuel ih =>
    constructor
    · intro s p d now s' log h
      by_cases hp : player_index_supported p
      · simp only [adjust_elapsed_time_for_player, hp, if_true] at h
        by_cases hexp :
            ((write_elapsed s p (adjusted_elapsed s p d)).player_maxtime_ms p : Int)
              ≤ (write_elapsed s p (adjusted_elapsed s p d)).player_elapsed_ms p
        · rw [if_pos hexp] at h
          cases hst : stop fuel (write_elapsed s p (adjusted_elapsed s p d)) now with
          | none => rw [hst] at h; exact absurd h (by simp)
          | some pr =>
            obtain ⟨s2, log2⟩ := pr
            rw [hst] at h
            simp only [Option.some.injEq, Prod.mk.injEq] at h
            obtain ⟨hs2, -⟩ := h
            subst hs2
            obtain ⟨e1, e2, e3⟩ := ih.2 _ _ _ _ hst
            refine ⟨by simpa using e1, by simpa using e2, fun hc => e3 ?_⟩
            exact clamped_write_adjusted s p d hc
        · rw [if_neg hexp] at h
          simp only [Option.some.injEq, Prod.mk.injEq] at h
          obtain ⟨hs1, -⟩ := h
          subst hs1
          exact ⟨rfl, rfl, clamped_write_adjusted s p d⟩
      · simp only [Bool.not_eq_true] at hp
        simp only [adjust_elapsed_time_for_player, hp, Bool.false_eq_true,
          if_false, Option.some.injEq, Prod.mk.injEq] at h
        obtain ⟨hs, -⟩ := h
        subst hs
        exact ⟨rfl, rfl, id⟩
    · intro s now s' log h
      cases hst : s.started_at with
      | none =>
        simp only [stop, hst, Option.some.injEq, Prod.mk.injEq] at h
        obtain ⟨hs, -⟩ := h
        subst hs
        exact ⟨rfl, rfl, id⟩
      | some t =>
        cases hcur : s.curr_player_index with
        | none =>
          simp only [stop, hst, hcur, Option.some.injEq, Prod.mk.injEq] at h
          obtain ⟨hs, -⟩ := h
          subst hs
          exact ⟨rfl, rfl, id⟩
        | some c =>
          simp only [stop, hst, hcur] at h
          cases hadj : adjust_elapsed_time_for_player fuel s c
              ((now - s.last_player_switch_at.getD t : Nat) : Int) now with
          | none => rw [hadj] at h; exact absurd h (by simp)
          | some pr =>
            obtain ⟨s1, log1⟩ := pr
            rw [hadj] at h
            simp only [Option.some.injEq, Prod.mk.injEq] at h
            obtain ⟨hs, -⟩ := h
            subst hs
            obtain ⟨e1, e2, e3⟩ := ih.1 _ _ _ _ _ _ hadj
            refine ⟨e1, e2, fun hc => ?_⟩
            intro hdir q hq
            exact e3 hc (by simpa using hdir) q hq

/-- `start` changes no accumulator, no maxtime and no direction. -/
lemma start_fields (s : ChessTimer) (now : Nat) :
    (start s now).direction = s.direction
    ∧ (start s now).player_maxtime_ms = s.player_maxtime_ms
    ∧ (start s now).player_elapsed_ms = s.player_elapsed_ms := by
  unfold start
  by_cases hs : s.started_at.isSome
  · simp [hs]
  · simp only [hs, if_false, Bool.false_eq_true]
    cases s.last_player_index <;> simp

/-- `switch_to_player` preserves direction, maxtime and the clamp. -/
lemma switch_preserve (fuel : Nat) (s : ChessTimer) (p now : Nat)
    (s' : ChessTimer) (log : List Nat)
    (h : switch_to_player fuel s p now = some (s', log)) :
    s'.direction = s.direction
    ∧ s'.player_maxtime_ms = s.player_maxtime_ms
    ∧ (CountdownClamped s → CountdownClamped s') := by
  by_cases hp : player_index_supported p
  · simp only [switch_to_player, hp, if_true] at h
    cases hsw : s.last_player_switch_at with
    | none =>
      simp only [hsw] at h
      simp only [Option.some.injEq, Prod.mk.injEq] at h
      obtain ⟨hs, -⟩ := h
      subst hs
      exact ⟨rfl, rfl, fun hc hdir q hq => hc (by simpa using hdir) q hq⟩
    | some t =>
      cases hcur : s.curr_player_index with
      | none =>
        simp only [hsw, hcur] at h
        simp only [Option.some.injEq, Prod.mk.injEq] at h
        obtain ⟨hs, -⟩ := h
        subst hs
        exact ⟨rfl, rfl, fun hc hdir q hq => hc (by simpa using hdir) q hq⟩
      | some c =>
        simp only [hsw, hcur] at h
        cases hadj : adjust_elapsed_time_for_player fuel s c
            (((now - t : Nat) : Int) - s.player_adjust_on_switch_ms c) now with
        | none => rw [hadj] at h; exact absurd h (by simp)
        | some pr =>
          obtain ⟨s1, log1⟩ := pr
          rw [hadj] at h
          simp only [Option.some.injEq, Prod.mk.injEq] at h
          obtain ⟨hs, -⟩ := h
          subst hs
          obtain ⟨e1, e2, e3⟩ := (adjust_stop_preserve fuel).1 _ _ _ _ _ _ hadj
          exact ⟨e1, e2, fun hc hdir q hq => e3 hc (by simpa using hdir) q hq⟩
  · simp only [Bool.not_eq_true] at hp
    simp only [switch_to_player, hp, Bool.false_eq_true, if_false,
      Option.some.injEq, Prod.mk.injEq] at h
    obtain ⟨hs, -⟩ := h
    subst hs
    exact ⟨rfl, rfl, id⟩

/-- Every single operation preserves direction, maxtime and the clamp. -/
lemma runOp_preserve (fuel : Nat) (s : ChessTimer) (op : Op)
    (s' : ChessTimer) (log : List Nat) (h : runOp fuel s op = some (s', log)) :
    s'.direction = s.direction
    ∧ s'.player_maxtime_ms = s.player_maxtime_ms
    ∧ (CountdownClamped s → CountdownClamped s') := by
  cases op with
  | opStart now =>
    simp only [runOp, Option.some.injEq, Prod.mk.injEq] at h
    obtain ⟨hs, -⟩ := h
    subst hs
    obtain ⟨e1, e2, e3⟩ := start_fields s now
    exact ⟨e1, e2, fun hc hdir q hq => by
      rw [e2, e3]
      exact hc (by rw [← e1]; exact hdir) q hq⟩
  | opStop now => exact (adjust_stop_preserve fuel).2 _ _ _ _ h
  | opAdjust p d now => exact (adjust_stop_preserve fuel).1 _ _ _ _ _ _ h
  | opSwitchTo p now => exact switch_preserve fuel s p now s' log h
  | opSwitchNext now =>
    simp only [runOp, switch_to_next_player] at h
    cases hcur : s.curr_player_index with
    | none =>
      rw [hcur] at h
      simp only [Option.some.injEq, Prod.mk.injEq] at h
      obtain ⟨hs, -⟩ := h
      subst hs
      exact ⟨rfl, rfl, id⟩
    | some c =>
      rw [hcur] at h
      exact switch_preserve fuel s _ now s' log h

/-- Sequences of operations preserve direction, maxtime and the clamp. -/
lemma runOps_preserve (fuel : Nat) (ops : List Op) :
    ∀ s s', runOps fuel s ops = some s' →
      s'.direction = s.direction
      ∧ s'.player_maxtime_ms = s.player_maxtime_ms
      ∧ (CountdownClamped s → CountdownClamped s') := by
  induction ops with
  | nil =>
    intro s s' h
    simp only [runOps, Option.some.injEq] at h
    subst h
    exact ⟨rfl, rfl, id⟩
  | cons op ops ihops =>
    intro s s' h
    simp only [runOps] at h
    cases hop : runOp fuel s op with
    | none => rw [hop] at h; exact absurd h (by simp)
    | some pr =>
      obtain ⟨s1, log1⟩ := pr
      rw [hop] at h
      obtain ⟨e1, e2, e3⟩ := runOp_preserve fuel s op s1 log1 hop
      obtain ⟨f1, f2, f3⟩ := ihops s1 s' h
      exact ⟨f1.trans e1, f2.trans e2, fun hc => f3 (e3 hc)⟩

end ChessClock

namespace ChessClock

/-- An in-range adjustment whose clamped result stays below the maxtime
never enters the expiry branch: it just writes the adjusted value. -/
lemma adjust_no_expiry (fuel : Nat) (s : ChessTimer) (p : Nat) (d : Int)
    (now : Nat) (hp : p < SUPPORTED_PLAYERS)
    (hlt : adjusted_elapsed s p d < (s.player_maxtime_ms p : Int)) :
    adjust_elapsed_time_for_player (fuel + 1) s p d now
      = some (write_elapsed s p (adjusted_elapsed s p d), []) := by
  have hsup := player_index_supported_true hp
  simp only [adjust_elapsed_time_for_player, hsup, if_true]
  rw [if_neg (by
    simp only [write_elapsed_maxtime, write_elapsed_self]
    exact not_le.mpr hlt)]

/-- C7.  On any countdown clock, after any sequence of operations that
returns, every in-range player's elapsed accumulator is at most that
player's maxtime (the clamp is applied on every adjustment, never a
rejection), while a single sufficiently negative adjustment drives the
accumulator below any chosen bound. -/
theorem countdown_clamp (maxt : Nat → Nat) (adjt : Option (Nat → Int))
    (s0 : ChessTimer)
    (h0 : new TimerDirection.Down (some maxt) adjt = Except.ok s0)
    (ops : List Op) (fuel : Nat) (s' : ChessTimer)
    (hrun : runOps fuel s0 ops = some s') :
    (∀ p, p < SUPPORTED_PLAYERS →
      s'.player_elapsed_ms p ≤ (s'.player_maxtime_ms p : Int))
    ∧ (∀ b : Int, ∃ t, runOps 2 s0 [Op.opAdjust 0 (min b 0 - 1) 0] = some t
        ∧ t.player_elapsed_ms 0 < b) := by
  have hs0 : s0 =
      { started_at := none
        last_player_switch_at := none
        direction := TimerDirection.Down
        curr_player_index := some 0
        last_player_index := none
        player_elapsed_ms := fun _ => 0
        player_maxtime_ms := maxt
        player_adjust_on_switch_ms := adjt.getD fun _ => 0 } := by
    simp only [new, Except.ok.injEq] at h0
    exact h0.symm
  constructor
  · obtain ⟨e1, e2, e3⟩ := runOps_preserve fuel ops s0 s' hrun
    have hc0 : CountdownClamped s0 := by
      rw [hs0]
      intro _ q _
      exact Int.natCast_nonneg (maxt q)
    have hdir' : s'.direction = TimerDirection.Down := by rw [e1, hs0]
    exact e3 hc0 hdir'
  · intro b
    have hdirr : s0.direction = TimerDirection.Down := by rw [hs0]
    have hel : s0.player_elapsed_ms 0 = 0 := by rw [hs0]
    set d : Int := min b 0 - 1 with hd
    have hdneg : d < 0 := by
      have := min_le_right b 0
      omega
    have hlt : adjusted_elapsed s0 0 d < ((s0.player_maxtime_ms 0 : Nat) : Int) := by
      rw [adjusted_elapsed_down _ _ _ hdirr, hel]
      have h1 : min ((s0.player_maxtime_ms 0 : Nat) : Int) (0 + d)
          ≤ 0 + d := min_le_right _ _
      have h2 : (0 : Int) ≤ ((s0.player_maxtime_ms 0 : Nat) : Int) :=
        Int.natCast_nonneg _
      omega
    have hadj : adjust_elapsed_time_for_player 2 s0 0 d 0
        = some (write_elapsed s0 0 (adjusted_elapsed s0 0 d), []) :=
      adjust_no_expiry 1 s0 0 d 0 (by decide) hlt
    refine ⟨write_elapsed s0 0 (adjusted_elapsed s0 0 d), ?_, ?_⟩
    · simp only [runOps, runOp, hadj]
    · rw [write_elapsed_self, adjusted_elapsed_down _ _ _ hdirr, hel]
      have h1 : min ((s0.player_maxtime_ms 0 : Nat) : Int) (0 + d)
          ≤ 0 + d := min_le_right _ _
      have h2 : min b 0 ≤ b := min_le_left _ _
      omega

/-- C7 witness: the empty operation sequence on the 1000 ms clock. -/
theorem countdown_clamp_witness :
    (∀ p, p < SUPPORTED_PLAYERS →
      downClock.player_elapsed_ms p ≤ (downClock.player_maxtime_ms p : Int))
    ∧ (∀ b : Int, ∃ t,
        runOps 2 downClock [Op.opAdjust 0 (min b 0 - 1) 0] = some t
        ∧ t.player_elapsed_ms 0 < b) :=
  countdown_clamp (fun _ => 1000) none downClock rfl [] 1 downClock rfl

/-- C6.  `stop` on a running clock with an in-range current player whose
charge does not expire it: charges `now - benchmark` (benchmark the switch
timestamp, which on reachable states is the later of the two timestamps,
falling back to the start time) to the current player through the
adjustment update, sets the switch timestamp to `now`, clears
`started_at`, and leaves the current player in place; on a stopped clock
`stop` is a no-op. -/
theorem stop_spec (s : ChessTimer) (now fuel t c : Nat)
    (hst : s.started_at = some t) (hcur : s.curr_player_index = some c)
    (hc : c < SUPPORTED_PLAYERS)
    (hnoexp : adjusted_elapsed s c
        ((now - s.last_player_switch_at.getD t : Nat) : Int)
      < (s.player_maxtime_ms c : Int)) :
    (∃ s', stop (fuel + 2) s now = some (s', [])
      ∧ s'.started_at = none
      ∧ s'.last_player_switch_at = some now
      ∧ s'.curr_player_index = some c
      ∧ s'.player_elapsed_ms c
          = adjusted_elapsed s c
              ((now - s.last_player_switch_at.getD t : Nat) : Int)
      ∧ (∀ j, j ≠ c → s'.player_elapsed_ms j = s.player_elapsed_ms j)
      ∧ s'.player_maxtime_ms = s.player_maxtime_ms
      ∧ s'.player_adjust_on_switch_ms = s.player_adjust_on_switch_ms
      ∧ s'.direction = s.direction
      ∧ s'.last_player_index = s.last_player_index)
    ∧ (∀ s2 : ChessTimer, s2.started_at = none →
        stop (fuel + 1) s2 now = some (s2, [])) := by
  constructor
  · have hadj := adjust_no_expiry fuel s c
      ((now - s.last_player_switch_at.getD t : Nat) : Int) now hc hnoexp
    simp only [stop, hst, hcur]
    rw [hadj]
    refine ⟨_, rfl, rfl, rfl, hcur, write_elapsed_self s c _, ?_, rfl, rfl,
      rfl, rfl⟩
    intro j hj
    exact write_elapsed_other s c _ j hj
  · intro s2 h2
    simp only [stop, h2]

/-- C6 witness: stopping the started 1000 ms clock at 500 ms. -/
theorem stop_spec_witness :
    (∃ s', stop (0 + 2) (start downClock 0) 500 = some (s', [])
      ∧ s'.started_at = none
      ∧ s'.last_player_switch_at = some 500
      ∧ s'.curr_player_index = some 0
      ∧ s'.player_elapsed_ms 0
          = adjusted_elapsed (start downClock 0) 0
              ((500 - (start downClock 0).last_player_switch_at.getD 0 : Nat) : Int)
      ∧ (∀ j, j ≠ 0 →
          s'.player_elapsed_ms j = (start downClock 0).player_elapsed_ms j)
      ∧ s'.player_maxtime_ms = (start downClock 0).player_maxtime_ms
      ∧ s'.player_adjust_on_switch_ms
          = (start downClock 0).player_adjust_on_switch_ms
      ∧ s'.direction = (start downClock 0).direction
      ∧ s'.last_player_index = (start downClock 0).last_player_index)
    ∧ (∀ s2 : ChessTimer, s2.started_at = none →
        stop (0 + 1) s2 500 = some (s2, [])) :=
  stop_spec (start downClock 0) 500 0 0 0 rfl rfl (by decide) (by decide)

/-- C5.  `switch_to_player p` with `p` in range, a recorded switch
timestamp and an in-range current player `q` (whose net charge does not
expire it) charges `q` the interval since the last switch minus
`switch_adjustment_ms[q]` through the adjustment update, records `q` as
last player, stamps the switch time, and makes `p` current;
`switch_to_next_player` is a no-op with no current player and otherwise
delegates to `switch_to_player ((current + 1) % SUPPORTED_PLAYERS)`; with
the spec's 5000 ms adjustment, a 40 ms turn leaves player 0's elapsed
time negative (banked time). -/
theorem switch_to_player_spec (s : ChessTimer) (p now fuel t q : Nat)
    (hp : p < SUPPORTED_PLAYERS)
    (hsw : s.last_player_switch_at = some t)
    (hcur : s.curr_player_index = some q) (hq : q < SUPPORTED_PLAYERS)
    (hnoexp : adjusted_elapsed s q
        (((now - t : Nat) : Int) - s.player_adjust_on_switch_ms q)
      < (s.player_maxtime_ms q : Int)) :
    (∃ s', switch_to_player (fuel + 1) s p now = some (s', [])
      ∧ s'.curr_player_index = some p
      ∧ s'.last_player_index = some q
      ∧ s'.last_player_switch_at = some now
      ∧ s'.player_elapsed_ms q
          = adjusted_elapsed s q
              (((now - t : Nat) : Int) - s.player_adjust_on_switch_ms q)
      ∧ (∀ j, j ≠ q → s'.player_elapsed_ms j = s.player_elapsed_ms j)
      ∧ s'.started_at = s.started_at
      ∧ s'.direction = s.direction
      ∧ s'.player_maxtime_ms = s.player_maxtime_ms
      ∧ s'.player_adjust_on_switch_ms = s.player_adjust_on_switch_ms)
    ∧ (∀ s2 : ChessTimer, s2.curr_player_index = none →
        switch_to_next_player fuel s2 now = some (s2, []))
    ∧ (∀ (s2 : ChessTimer) (c : Nat), s2.curr_player_index = some c →
        c < SUPPORTED_PLAYERS →
        switch_to_next_player fuel s2 now
          = switch_to_player fuel s2 ((c + 1) % SUPPORTED_PLAYERS) now)
    ∧ (∃ u, switch_to_player 2 (start bankClock 0) 1 40 = some (u, [])
        ∧ u.player_elapsed_ms 0 < 0) := by
  refine ⟨?_, ?_, ?_, ?_⟩
  · have hadj := adjust_no_expiry fuel s q
      (((now - t : Nat) : Int) - s.player_adjust_on_switch_ms q) now hq hnoexp
    simp only [switch_to_player, player_index_supported_true hp, if_true,
      hsw, hcur]
    rw [hadj]
    refine ⟨_, rfl, rfl, hcur, rfl, write_elapsed_self s q _, ?_, rfl, rfl,
      rfl, rfl⟩
    intro j hj
    exact write_elapsed_other s q _ j hj
  · intro s2 h2
    simp only [switch_to_next_player, h2]
  · intro s2 c hc2 hlt
    have : c = 0 ∨ c = 1 := by
      have : SUPPORTED_PLAYERS = 2 := rfl
      omega
    rcases this with rfl | rfl <;>
      simp [switch_to_next_player, hc2, SUPPORTED_PLAYERS]
  · exact ⟨_, rfl, by decide⟩

/-- C5 witness: switching from player 0 to player 1 at 10 ms on the
started 1000 ms clock. -/
theorem switch_to_player_spec_witness :
    (∃ s', switch_to_player (0 + 1) (start downClock 0) 1 10 = some (s', [])
      ∧ s'.curr_player_index = some 1
      ∧ s'.last_player_index = some 0
      ∧ s'.last_player_switch_at = some 10
      ∧ s'.player_elapsed_ms 0
          = adjusted_elapsed (start downClock 0) 0
              (((10 - 0 : Nat) : Int)
                - (start downClock 0).player_adjust_on_switch_ms 0)
      ∧ (∀ j, j ≠ 0 →
          s'.player_elapsed_ms j = (start downClock 0).player_elapsed_ms j)
      ∧ s'.started_at = (start downClock 0).started_at
      ∧ s'.direction = (start downClock 0).direction
      ∧ s'.player_maxtime_ms = (start downClock 0).player_maxtime_ms
      ∧ s'.player_adjust_on_switch_ms
          = (start downClock 0).player_adjust_on_switch_ms)
    ∧ (∀ s2 : ChessTimer, s2.curr_player_index = none →
        switch_to_next_player 0 s2 10 = some (s2, []))
    ∧ (∀ (s2 : ChessTimer) (c : Nat), s2.curr_player_index = some c →
        c < SUPPORTED_PLAYERS →
        switch_to_next_player 0 s2 10
          = switch_to_player 0 s2 ((c + 1) % SUPPORTED_PLAYERS) 10)
    ∧ (∃ u, switch_to_player 2 (start bankClock 0) 1 40 = some (u, [])
        ∧ u.player_elapsed_ms 0 < 0) :=
  switch_to_player_spec (start downClock 0) 1 10 0 0 0 (by decide) rfl rfl
    (by decide) (by decide)

/-- C4.  The spec says stop-then-start resumes with the current player
from before the stop.  On the code, `switch_to_player` records the
outgoing player in `last_player_index`, `stop` neither sets nor clears
it, and `start` unconditionally restores it: after new, start, switch to
player 1, stop, the current player is 1, but restarting makes player 0
current again. -/
theorem restart_restores_stale_player :
    ((new TimerDirection.Down (some fun _ => 1000) none).toOption.bind fun s0 =>
      (switch_to_player 3 (start s0 0) 1 10).bind fun r1 =>
      (stop 3 r1.1 20).map fun r2 =>
      (current_player r1.1, current_player (start r2.1 30)))
    = some (some 1, some 0) := by
  rfl

end ChessClock
